import Mathlib

/-!
# Verification of the `reverse` reverse-mode automatic differentiation library

Shallow embedding of the Rust sources `src/lib.rs` and `src/ops.rs`.
`f64` values are modelled as real numbers `ℝ`; machine indices (`usize`)
as `ℕ`.  The `Tape` is an append-only list of `Node`s; the interior
mutability of the Rust `RefCell` is rendered by explicit state passing:
every operation takes the current tape and returns the new tape together
with the resulting variable handle.
-/

namespace Reverse

/-- `Node` from `lib.rs`: two weights (local partial derivatives) and two
dependency indices into the tape. -/
structure Node where
  weights : ℝ × ℝ
  dependencies : ℕ × ℕ

instance : Inhabited Node := ⟨⟨(0, 0), (0, 0)⟩⟩

/-- The tape (Wengert list): the `nodes: RefCell<Vec<Node>>` field of the
Rust `Tape`, with the vector modelled as a list. -/
abbrev Tape := List Node

/-- `Tape::new()`: the empty tape. -/
def Tape.new : Tape := []

/-- `Tape::len()`. -/
def Tape.len (t : Tape) : ℕ := List.length t

/-- `Tape::is_empty()`. -/
def Tape.isEmpty (t : Tape) : Prop := t.len = 0

/-- `Tape::add_node(loc1, loc2, grad1, grad2)`: pushes a node and returns
the new tape together with the index of the pushed node (the old length). -/
def Tape.add_node (t : Tape) (loc1 loc2 : ℕ) (grad1 grad2 : ℝ) : Tape × ℕ :=
  (List.append t [⟨(grad1, grad2), (loc1, loc2)⟩], t.len)

/-- `Var` from `lib.rs`, for code operating on a single tape: the value and
the location.  The `tape: &'a Tape` reference is rendered by explicit state
passing of the tape (for cross-tape claims see `VarH` below). -/
structure Var where
  val : ℝ
  location : ℕ

/-- `Tape::add_var(val)`: appends a leaf node (self-referencing
dependencies, zero weights) and returns the handle and the new tape. -/
def Tape.add_var (t : Tape) (val : ℝ) : Var × Tape :=
  let len := t.len
  let p := t.add_node len len 0 0
  (⟨val, p.2⟩, p.1)

/-- `Tape::add_vars(vals)`: `add_var` applied to each value in order. -/
def Tape.add_vars (t : Tape) (vals : List ℝ) : List Var × Tape :=
  match vals with
  | [] => ([], t)
  | v :: rest =>
    let p := t.add_var v
    let q := Tape.add_vars p.2 rest
    (p.1 :: q.1, q.2)

/-- `Tape::zero_grad()`: sets every stored weight pair to `[0,0]` in place. -/
def Tape.zero_grad (t : Tape) : Tape :=
  List.map (fun n => { n with weights := (0, 0) }) t

/-- `Tape::clear()`: truncates the tape to empty. -/
def Tape.clear (_ : Tape) : Tape := []

/-- One iteration of the backward-pass loop body at position `idx` holding
node `nd` (from `Var::grad`):
`derivs[n.dependencies[0]] += n.weights[0] * derivs[idx];`
`derivs[n.dependencies[1]] += n.weights[1] * derivs[idx];`
The two statements execute sequentially, so the second reads the vector as
updated by the first. -/
def gradStep (idx : ℕ) (nd : Node) (d : List ℝ) : List ℝ :=
  let d1 := d.set nd.dependencies.1 (d.getD nd.dependencies.1 0 + nd.weights.1 * d.getD idx 0)
  d1.set nd.dependencies.2 (d1.getD nd.dependencies.2 0 + nd.weights.2 * d1.getD idx 0)

/-- `Var::grad`: allocate `vec![0.; n]`, seed `derivs[self.location] = 1.`,
then run the loop `for (idx, n) in nodes.iter().enumerate().rev()`.
Iterating the enumerated list in reverse order is a right fold over the
enumerated list. -/
def Var.grad (x : Var) (t : Tape) : List ℝ :=
  let n := t.len
  let derivs := (List.replicate n (0 : ℝ)).set x.location 1
  List.foldr (fun (p : ℕ × Node) d => gradStep p.1 p.2 d) derivs t.enum

/-- `Gradient::wrt` for a single variable: index the adjoint vector at the
handle's location. -/
def wrt (g : List ℝ) (v : Var) : ℝ := g.getD v.location 0

/-- Modelled from the spec's wording of the backward pass (§4.3): scan tape
positions from the highest index down to 0; `specScan t i d` processes
positions `i-1, i-2, …, 0` starting from adjoint vector `d`. -/
def specScan (t : Tape) : ℕ → List ℝ → List ℝ
  | 0, d => d
  | i + 1, d => specScan t i (gradStep i (t.getD i default) d)

/-- Modelled from the spec's wording of the backward pass (§4.3): allocate
zeros of length `tape.len()`, seed position `terminal.location` with 1,
then scan from the highest position down to 0. -/
def gradSpec (x : Var) (t : Tape) : List ℝ :=
  specScan t t.len ((List.replicate t.len (0 : ℝ)).set x.location 1)

/- ### The reverse fold over the enumerated list equals the countdown scan -/

theorem specScan_append (t : Tape) (a : Node) (i : ℕ) (h : i ≤ t.len) (d : List ℝ) :
    specScan (List.append t [a] : Tape) i d = specScan t i d := by
  induction i generalizing d with
  | zero => rfl
  | succ i ih =>
    have hi : i < t.len := Nat.lt_of_lt_of_le (Nat.lt_succ_self i) h
    have hi' : i < List.length t := hi
    have hget : (List.append t [a]).getD i default = List.getD t i default := by
      simp only [List.getD, List.append_eq]
      rw [List.get?_append hi']
    simp only [specScan, hget]
    exact ih (Nat.le_of_lt hi) _

theorem foldr_enum_eq_specScan (t : Tape) (d : List ℝ) :
    List.foldr (fun (p : ℕ × Node) d => gradStep p.1 p.2 d) d t.enum
      = specScan t t.len d := by
  induction t using List.reverseRecOn generalizing d with
  | nil => rfl
  | append_singleton t a ih =>
    have henum : (t ++ [a]).enum = t.enum ++ [(t.length, a)] := by
      simp [List.enum_append]
    rw [henum, List.foldr_append]
    simp only [List.foldr_cons, List.foldr_nil]
    have hlen : (Tape.len (t ++ [a] : List Node)) = t.length + 1 := by
      simp [Tape.len]
    rw [hlen]
    have hget : (List.getD (t ++ [a]) t.length default) = a := by
      simp [List.getD]
    show List.foldr _ (gradStep t.length a d) t.enum = specScan (t ++ [a] : Tape) (t.length + 1) d
    rw [ih]
    have : specScan (t ++ [a] : Tape) (t.length + 1) d
        = specScan (t ++ [a] : Tape) t.length (gradStep t.length a d) := by
      simp only [specScan, hget]
    rw [this]
    exact (specScan_append t a t.length (le_refl _) _).symm

/- ### The elementary operation library (`lib.rs` unary methods, `ops.rs`) -/

noncomputable section

/-- Models the `f64::acosh` intrinsic over `ℝ` (Mathlib has no `arcosh`):
the standard logarithmic form `ln (x + √(x² − 1))`. -/
def acoshReal (x : ℝ) : ℝ := Real.log (x + Real.sqrt (x ^ 2 - 1))

/-- Models the `f64::atanh` intrinsic over `ℝ` (Mathlib has no `artanh`):
the standard logarithmic form `ln ((1 + x) / (1 − x)) / 2`. -/
def atanhReal (x : ℝ) : ℝ := Real.log ((1 + x) / (1 - x)) / 2

/-- Models `f64::NAN`; IEEE NaN has no counterpart in `ℝ`, rendered by the
junk value `0 / 0` (which is `0` in Lean's real division). -/
def nanReal : ℝ := 0 / 0

/-- `Var::recip`. -/
def Var.recip (x : Var) (t : Tape) : Var × Tape :=
  let p := t.add_node x.location x.location (-1 / x.val ^ 2) 0
  (⟨x.val⁻¹, p.2⟩, p.1)

/-- `Var::sin`. -/
def Var.sin (x : Var) (t : Tape) : Var × Tape :=
  let p := t.add_node x.location x.location (Real.cos x.val) 0
  (⟨Real.sin x.val, p.2⟩, p.1)

/-- `Var::cos`. -/
def Var.cos (x : Var) (t : Tape) : Var × Tape :=
  let p := t.add_node x.location x.location (-Real.sin x.val) 0
  (⟨Real.cos x.val, p.2⟩, p.1)

/-- `Var::tan`. -/
def Var.tan (x : Var) (t : Tape) : Var × Tape :=
  let p := t.add_node x.location x.location (1 / Real.cos x.val ^ 2) 0
  (⟨Real.tan x.val, p.2⟩, p.1)

/-- `Var::ln`. -/
def Var.ln (x : Var) (t : Tape) : Var × Tape :=
  let p := t.add_node x.location x.location (1 / x.val) 0
  (⟨Real.log x.val, p.2⟩, p.1)

/-- `Var::log(base)`. -/
def Var.log (x : Var) (base : ℝ) (t : Tape) : Var × Tape :=
  let p := t.add_node x.location x.location (1 / (x.val * Real.log base)) 0
  (⟨Real.logb base x.val, p.2⟩, p.1)

/-- `Var::log10`. -/
def Var.log10 (x : Var) (t : Tape) : Var × Tape := x.log 10 t

/-- `Var::log2`. -/
def Var.log2 (x : Var) (t : Tape) : Var × Tape := x.log 2 t

/-- `Var::ln_1p`. -/
def Var.ln_1p (x : Var) (t : Tape) : Var × Tape :=
  let p := t.add_node x.location x.location (1 / (1 + x.val)) 0
  (⟨Real.log (1 + x.val), p.2⟩, p.1)

/-- `Var::asin`. -/
def Var.asin (x : Var) (t : Tape) : Var × Tape :=
  let p := t.add_node x.location x.location (1 / Real.sqrt (1 - x.val ^ 2)) 0
  (⟨Real.arcsin x.val, p.2⟩, p.1)

/-- `Var::acos`. -/
def Var.acos (x : Var) (t : Tape) : Var × Tape :=
  let p := t.add_node x.location x.location (-1 / Real.sqrt (1 - x.val ^ 2)) 0
  (⟨Real.arccos x.val, p.2⟩, p.1)

/-- `Var::atan`. -/
def Var.atan (x : Var) (t : Tape) : Var × Tape :=
  let p := t.add_node x.location x.location (1 / (1 + x.val ^ 2)) 0
  (⟨Real.arctan x.val, p.2⟩, p.1)

/-- `Var::sinh`. -/
def Var.sinh (x : Var) (t : Tape) : Var × Tape :=
  let p := t.add_node x.location x.location (Real.cosh x.val) 0
  (⟨Real.sinh x.val, p.2⟩, p.1)

/-- `Var::cosh`. -/
def Var.cosh (x : Var) (t : Tape) : Var × Tape :=
  let p := t.add_node x.location x.location (Real.sinh x.val) 0
  (⟨Real.cosh x.val, p.2⟩, p.1)

/-- `Var::tanh`. -/
def Var.tanh (x : Var) (t : Tape) : Var × Tape :=
  let p := t.add_node x.location x.location (1 / Real.cosh x.val ^ 2) 0
  (⟨Real.tanh x.val, p.2⟩, p.1)

/-- `Var::asinh`. -/
def Var.asinh (x : Var) (t : Tape) : Var × Tape :=
  let p := t.add_node x.location x.location (1 / Real.sqrt (1 + x.val ^ 2)) 0
  (⟨Real.arsinh x.val, p.2⟩, p.1)

/-- `Var::acosh`. -/
def Var.acosh (x : Var) (t : Tape) : Var × Tape :=
  let p := t.add_node x.location x.location (1 / Real.sqrt (x.val ^ 2 - 1)) 0
  (⟨acoshReal x.val, p.2⟩, p.1)

/-- `Var::atanh`. -/
def Var.atanh (x : Var) (t : Tape) : Var × Tape :=
  let p := t.add_node x.location x.location (1 / (1 - x.val ^ 2)) 0
  (⟨atanhReal x.val, p.2⟩, p.1)

/-- `Var::exp`. -/
def Var.exp (x : Var) (t : Tape) : Var × Tape :=
  let p := t.add_node x.location x.location (Real.exp x.val) 0
  (⟨Real.exp x.val, p.2⟩, p.1)

/-- `Var::exp2`. -/
def Var.exp2 (x : Var) (t : Tape) : Var × Tape :=
  let p := t.add_node x.location x.location ((2 : ℝ) ^ x.val * Real.log 2) 0
  (⟨(2 : ℝ) ^ x.val, p.2⟩, p.1)

/-- `Var::sqrt`. -/
def Var.sqrt (x : Var) (t : Tape) : Var × Tape :=
  let p := t.add_node x.location x.location (1 / (2 * Real.sqrt x.val)) 0
  (⟨Real.sqrt x.val, p.2⟩, p.1)

/-- `Var::abs`. -/
def Var.abs (x : Var) (t : Tape) : Var × Tape :=
  let val := |x.val|
  let p := t.add_node x.location x.location
    (if x.val = 0 then nanReal else x.val / val) 0
  (⟨val, p.2⟩, p.1)

/-- `Var::powi(n)`. -/
def Var.powi (x : Var) (n : ℤ) (t : Tape) : Var × Tape :=
  let p := t.add_node x.location x.location ((n : ℝ) * x.val ^ (n - 1)) 0
  (⟨x.val ^ n, p.2⟩, p.1)

/-- `ops.rs` `add` between two `Var`s on the same tape (the body after the
tape-identity assertion; the assertion is modelled at the `VarH` layer):
value `x + y`, node `(self.location, rhs.location, 1., 1.)`. -/
def Var.addVV (x y : Var) (t : Tape) : Var × Tape :=
  let p := t.add_node x.location y.location 1 1
  (⟨x.val + y.val, p.2⟩, p.1)

/-- `ops.rs` `add` of a `Var` and an `f64` (rprim). -/
def Var.addVP (x : Var) (c : ℝ) (t : Tape) : Var × Tape :=
  let p := t.add_node x.location x.location 1 0
  (⟨x.val + c, p.2⟩, p.1)

/-- `ops.rs` `add` of an `f64` and a `Var` (lprim): `rhs + self`. -/
def Var.addPV (c : ℝ) (x : Var) (t : Tape) : Var × Tape := x.addVP c t

/-- `ops.rs` `mul` between two `Var`s on the same tape: value `x * y`, node
`(self.location, rhs.location, rhs.val, self.val)`. -/
def Var.mulVV (x y : Var) (t : Tape) : Var × Tape :=
  let p := t.add_node x.location y.location y.val x.val
  (⟨x.val * y.val, p.2⟩, p.1)

/-- `ops.rs` `mul` of a `Var` and an `f64` (rprim). -/
def Var.mulVP (x : Var) (c : ℝ) (t : Tape) : Var × Tape :=
  let p := t.add_node x.location x.location c 0
  (⟨x.val * c, p.2⟩, p.1)

/-- `ops.rs` `mul` of an `f64` and a `Var` (lprim): `rhs * self`. -/
def Var.mulPV (c : ℝ) (x : Var) (t : Tape) : Var × Tape := x.mulVP c t

/-- `ops.rs` unary `neg`: `self * -1.0f64`. -/
def Var.neg (x : Var) (t : Tape) : Var × Tape := x.mulVP (-1) t

/-- `ops.rs` `sub` between two `Var`s: `self + rhs.neg()` — the negation
appends its own node before the addition appends another. -/
def Var.subVV (x y : Var) (t : Tape) : Var × Tape :=
  let p := y.neg t
  x.addVV p.1 p.2

/-- `ops.rs` `sub` of an `f64` and a `Var` (lprim): value `c − y`, node
`(rhs.location, rhs.location, 0., -1.)`. -/
def Var.subPV (c : ℝ) (y : Var) (t : Tape) : Var × Tape :=
  let p := t.add_node y.location y.location 0 (-1)
  (⟨c - y.val, p.2⟩, p.1)

/-- `ops.rs` `sub` of a `Var` and an `f64` (rprim): `self + rhs.neg()`
where `rhs.neg()` is plain `f64` negation (no node). -/
def Var.subVP (x : Var) (c : ℝ) (t : Tape) : Var × Tape := x.addVP (-c) t

/-- `ops.rs` `div` between two `Var`s: `self * rhs.recip()` — the
reciprocal appends its own node before the multiplication appends another. -/
def Var.divVV (x y : Var) (t : Tape) : Var × Tape :=
  let p := y.recip t
  x.mulVV p.1 p.2

/-- `ops.rs` `div` of a `Var` by an `f64` (rprim): `self * rhs.recip()`
where `rhs.recip()` is plain `f64` reciprocal (no node). -/
def Var.divVP (x : Var) (c : ℝ) (t : Tape) : Var × Tape := x.mulVP c⁻¹ t

/-- `ops.rs` `div` of an `f64` by a `Var` (lprim): value `c / y`, node
`(rhs.location, rhs.location, 0., -1. / rhs.val)`. -/
def Var.divPV (c : ℝ) (y : Var) (t : Tape) : Var × Tape :=
  let p := t.add_node y.location y.location 0 (-1 / y.val)
  (⟨c / y.val, p.2⟩, p.1)

/-- `ops.rs` `powf` between two `Var`s on the same tape: value `x^y`, node
`(self.location, rhs.location, rhs.val * self.val^(rhs.val - 1),
self.val^rhs.val * ln self.val)`. -/
def Var.powfVV (x y : Var) (t : Tape) : Var × Tape :=
  let p := t.add_node x.location y.location
    (y.val * x.val ^ (y.val - 1)) (x.val ^ y.val * Real.log x.val)
  (⟨x.val ^ y.val, p.2⟩, p.1)

/-- `ops.rs` `powf` of a `Var` and an `f64` exponent (rprim). -/
def Var.powfVP (x : Var) (c : ℝ) (t : Tape) : Var × Tape :=
  let p := t.add_node x.location x.location (c * x.val ^ (c - 1)) 0
  (⟨x.val ^ c, p.2⟩, p.1)

/-- `ops.rs` `powf` of an `f64` base and a `Var` exponent (lprim): value
`c^x`, node `(rhs.location, rhs.location, 0., rhs.val * c^(rhs.val - 1))`. -/
def Var.powfPV (c : ℝ) (x : Var) (t : Tape) : Var × Tape :=
  let p := t.add_node x.location x.location 0 (x.val * c ^ (x.val - 1))
  (⟨c ^ x.val, p.2⟩, p.1)

/-- `Var::cbrt`: `self.powf(1. / 3.)`. -/
def Var.cbrt (x : Var) (t : Tape) : Var × Tape := x.powfVP (1 / 3) t

/-- `ops.rs` `Sum for Var`: `iter.reduce(|a, b| a + b).unwrap()` — the
left fold of pairwise `add` seeded with the first element; the empty
collection panics in `unwrap`, modelled as `none`. -/
def sumVars (vs : List Var) (t : Tape) : Option (Var × Tape) :=
  match vs with
  | [] => none
  | v :: rest =>
    some (List.foldl (fun (p : Var × Tape) b => Var.addVV p.1 b p.2) (v, t) rest)

end

/- ### Invariant I1: no forward references -/

/-- Invariant I1 from the spec: every node's two dependency indices are at
most its own position in the tape. -/
def NoForwardRefs (t : Tape) : Prop :=
  ∀ i, i < t.len →
    (List.getD t i default).dependencies.1 ≤ i ∧
    (List.getD t i default).dependencies.2 ≤ i

theorem Tape.add_node_fst (t : Tape) (l1 l2 : ℕ) (g1 g2 : ℝ) :
    (t.add_node l1 l2 g1 g2).1 = List.append t [⟨(g1, g2), (l1, l2)⟩] := rfl

theorem Tape.add_node_len (t : Tape) (l1 l2 : ℕ) (g1 g2 : ℝ) :
    (t.add_node l1 l2 g1 g2).1.len = t.len + 1 := by
  simp [Tape.add_node, Tape.len]

theorem noForwardRefs_add_node {t : Tape} {l1 l2 : ℕ} {g1 g2 : ℝ}
    (h : NoForwardRefs t) (h1 : l1 ≤ t.len) (h2 : l2 ≤ t.len) :
    NoForwardRefs (t.add_node l1 l2 g1 g2).1 := by
  intro i hi
  rw [Tape.add_node_len] at hi
  rcases Nat.lt_or_ge i t.len with hlt | hge
  · have hlt' : i < List.length t := hlt
    have heq : List.getD (t.add_node l1 l2 g1 g2).1 i default
        = List.getD t i default := by
      simp only [Tape.add_node_fst, List.append_eq, List.getD]
      rw [List.get?_append hlt']
    rw [heq]
    exact h i hlt
  · have hieq : i = t.len := Nat.le_antisymm (Nat.lt_succ_iff.mp hi) hge
    subst hieq
    have heq : List.getD (t.add_node l1 l2 g1 g2).1 t.len default
        = ⟨(g1, g2), (l1, l2)⟩ := by
      simp only [Tape.add_node_fst, List.append_eq]
      have : Tape.len t = List.length t := rfl
      simp [List.getD, this]
    rw [heq]
    exact ⟨h1, h2⟩

/-- All tape states reachable by any sequence of leaf creations
(`add_var` / `add_vars`) and elementary-operation calls whose operand
handles point into the current tape. -/
inductive Reachable : Tape → Prop
  | empty : Reachable Tape.new
  | step_add_var (t : Tape) (v : ℝ) : Reachable t → Reachable (t.add_var v).2
  | step_add_vars (t : Tape) (vals : List ℝ) :
      Reachable t → Reachable (t.add_vars vals).2
  | step_recip (t : Tape) (x : Var) :
      Reachable t → x.location < t.len → Reachable (Var.recip x t).2
  | step_sin (t : Tape) (x : Var) :
      Reachable t → x.location < t.len → Reachable (Var.sin x t).2
  | step_cos (t : Tape) (x : Var) :
      Reachable t → x.location < t.len → Reachable (Var.cos x t).2
  | step_tan (t : Tape) (x : Var) :
      Reachable t → x.location < t.len → Reachable (Var.tan x t).2
  | step_ln (t : Tape) (x : Var) :
      Reachable t → x.location < t.len → Reachable (Var.ln x t).2
  | step_log (t : Tape) (x : Var) (base : ℝ) :
      Reachable t → x.location < t.len → Reachable (Var.log x base t).2
  | step_log10 (t : Tape) (x : Var) :
      Reachable t → x.location < t.len → Reachable (Var.log10 x t).2
  | step_log2 (t : Tape) (x : Var) :
      Reachable t → x.location < t.len → Reachable (Var.log2 x t).2
  | step_ln_1p (t : Tape) (x : Var) :
      Reachable t → x.location < t.len → Reachable (Var.ln_1p x t).2
  | step_asin (t : Tape) (x : Var) :
      Reachable t → x.location < t.len → Reachable (Var.asin x t).2
  | step_acos (t : Tape) (x : Var) :
      Reachable t → x.location < t.len → Reachable (Var.acos x t).2
  | step_atan (t : Tape) (x : Var) :
      Reachable t → x.location < t.len → Reachable (Var.atan x t).2
  | step_sinh (t : Tape) (x : Var) :
      Reachable t → x.location < t.len → Reachable (Var.sinh x t).2
  | step_cosh (t : Tape) (x : Var) :
      Reachable t → x.location < t.len → Reachable (Var.cosh x t).2
  | step_tanh (t : Tape) (x : Var) :
      Reachable t → x.location < t.len → Reachable (Var.tanh x t).2
  | step_asinh (t : Tape) (x : Var) :
      Reachable t → x.location < t.len → Reachable (Var.asinh x t).2
  | step_acosh (t : Tape) (x : Var) :
      Reachable t → x.location < t.len → Reachable (Var.acosh x t).2
  | step_atanh (t : Tape) (x : Var) :
      Reachable t → x.location < t.len → Reachable (Var.atanh x t).2
  | step_exp (t : Tape) (x : Var) :
      Reachable t → x.location < t.len → Reachable (Var.exp x t).2
  | step_exp2 (t : Tape) (x : Var) :
      Reachable t → x.location < t.len → Reachable (Var.exp2 x t).2
  | step_sqrt (t : Tape) (x : Var) :
      Reachable t → x.location < t.len → Reachable (Var.sqrt x t).2
  | step_abs (t : Tape) (x : Var) :
      Reachable t → x.location < t.len → Reachable (Var.abs x t).2
  | step_powi (t : Tape) (x : Var) (n : ℤ) :
      Reachable t → x.location < t.len → Reachable (Var.powi x n t).2
  | step_cbrt (t : Tape) (x : Var) :
      Reachable t → x.location < t.len → Reachable (Var.cbrt x t).2
  | step_addVV (t : Tape) (x y : Var) :
      Reachable t → x.location < t.len → y.location < t.len →
      Reachable (Var.addVV x y t).2
  | step_addVP (t : Tape) (x : Var) (c : ℝ) :
      Reachable t → x.location < t.len → Reachable (Var.addVP x c t).2
  | step_addPV (t : Tape) (c : ℝ) (x : Var) :
      Reachable t → x.location < t.len → Reachable (Var.addPV c x t).2
  | step_neg (t : Tape) (x : Var) :
      Reachable t → x.location < t.len → Reachable (Var.neg x t).2
  | step_subVV (t : Tape) (x y : Var) :
      Reachable t → x.location < t.len → y.location < t.len →
      Reachable (Var.subVV x y t).2
  | step_subPV (t : Tape) (c : ℝ) (y : Var) :
      Reachable t → y.location < t.len → Reachable (Var.subPV c y t).2
  | step_subVP (t : Tape) (x : Var) (c : ℝ) :
      Reachable t → x.location < t.len → Reachable (Var.subVP x c t).2
  | step_mulVV (t : Tape) (x y : Var) :
      Reachable t → x.location < t.len → y.location < t.len →
      Reachable (Var.mulVV x y t).2
  | step_mulVP (t : Tape) (x : Var) (c : ℝ) :
      Reachable t → x.location < t.len → Reachable (Var.mulVP x c t).2
  | step_mulPV (t : Tape) (c : ℝ) (x : Var) :
      Reachable t → x.location < t.len → Reachable (Var.mulPV c x t).2
  | step_divVV (t : Tape) (x y : Var) :
      Reachable t → x.location < t.len → y.location < t.len →
      Reachable (Var.divVV x y t).2
  | step_divVP (t : Tape) (x : Var) (c : ℝ) :
      Reachable t → x.location < t.len → Reachable (Var.divVP x c t).2
  | step_divPV (t : Tape) (c : ℝ) (y : Var) :
      Reachable t → y.location < t.len → Reachable (Var.divPV c y t).2
  | step_powfVV (t : Tape) (x y : Var) :
      Reachable t → x.location < t.len → y.location < t.len →
      Reachable (Var.powfVV x y t).2
  | step_powfVP (t : Tape) (x : Var) (c : ℝ) :
      Reachable t → x.location < t.len → Reachable (Var.powfVP x c t).2
  | step_powfPV (t : Tape) (c : ℝ) (x : Var) :
      Reachable t → x.location < t.len → Reachable (Var.powfPV c x t).2
  | step_sum (t t' : Tape) (vs : List Var) (v : Var) :
      Reachable t → (∀ x ∈ vs, x.location < t.len) →
      sumVars vs t = some (v, t') → Reachable t'

theorem noForwardRefs_add_var {t : Tape} (v : ℝ) (h : NoForwardRefs t) :
    NoForwardRefs (t.add_var v).2 :=
  noForwardRefs_add_node h le_rfl le_rfl

theorem noForwardRefs_add_vars {t : Tape} (vals : List ℝ) (h : NoForwardRefs t) :
    NoForwardRefs (t.add_vars vals).2 := by
  induction vals generalizing t with
  | nil => exact h
  | cons v rest ih => exact ih (noForwardRefs_add_var v h)

theorem noForwardRefs_sumFold {t : Tape} {v : Var} (vs : List Var)
    (h : NoForwardRefs t) (hv : v.location < t.len)
    (hvs : ∀ x ∈ vs, x.location < t.len) :
    NoForwardRefs
      (List.foldl (fun (p : Var × Tape) b => Var.addVV p.1 b p.2) (v, t) vs).2 := by
  induction vs generalizing v t with
  | nil => exact h
  | cons b rest ih =>
    have hb : b.location < t.len := hvs b (List.mem_cons_self b rest)
    have h' : NoForwardRefs (Var.addVV v b t).2 :=
      noForwardRefs_add_node h hv.le hb.le
    have hlen : (Var.addVV v b t).2.len = t.len + 1 := Tape.add_node_len t _ _ _ _
    refine ih h' ?_ ?_
    · show (Var.addVV v b t).1.location < (Var.addVV v b t).2.len
      rw [hlen]
      exact Nat.lt_succ_self t.len
    · show ∀ x ∈ rest, x.location < (Var.addVV v b t).2.len
      intro x hx
      rw [hlen]
      exact Nat.lt_succ_of_lt (hvs x (List.mem_cons_of_mem b hx))

/-- C2: every reachable tape state satisfies Invariant I1 — no node
references a position appended after it. -/
theorem reachable_noForwardRefs (t : Tape) (h : Reachable t) : NoForwardRefs t := by
  induction h with
  | empty => intro i hi; exact absurd hi (Nat.not_lt_zero i)
  | step_add_var t v hr ih => exact noForwardRefs_add_var v ih
  | step_add_vars t vals hr ih => exact noForwardRefs_add_vars vals ih
  | step_recip t x hr hx ih => exact noForwardRefs_add_node ih hx.le hx.le
  | step_sin t x hr hx ih => exact noForwardRefs_add_node ih hx.le hx.le
  | step_cos t x hr hx ih => exact noForwardRefs_add_node ih hx.le hx.le
  | step_tan t x hr hx ih => exact noForwardRefs_add_node ih hx.le hx.le
  | step_ln t x hr hx ih => exact noForwardRefs_add_node ih hx.le hx.le
  | step_log t x base hr hx ih => exact noForwardRefs_add_node ih hx.le hx.le
  | step_log10 t x hr hx ih => exact noForwardRefs_add_node ih hx.le hx.le
  | step_log2 t x hr hx ih => exact noForwardRefs_add_node ih hx.le hx.le
  | step_ln_1p t x hr hx ih => exact noForwardRefs_add_node ih hx.le hx.le
  | step_asin t x hr hx ih => exact noForwardRefs_add_node ih hx.le hx.le
  | step_acos t x hr hx ih => exact noForwardRefs_add_node ih hx.le hx.le
  | step_atan t x hr hx ih => exact noForwardRefs_add_node ih hx.le hx.le
  | step_sinh t x hr hx ih => exact noForwardRefs_add_node ih hx.le hx.le
  | step_cosh t x hr hx ih => exact noForwardRefs_add_node ih hx.le hx.le
  | step_tanh t x hr hx ih => exact noForwardRefs_add_node ih hx.le hx.le
  | step_asinh t x hr hx ih => exact noForwardRefs_add_node ih hx.le hx.le
  | step_acosh t x hr hx ih => exact noForwardRefs_add_node ih hx.le hx.le
  | step_atanh t x hr hx ih => exact noForwardRefs_add_node ih hx.le hx.le
  | step_exp t x hr hx ih => exact noForwardRefs_add_node ih hx.le hx.le
  | step_exp2 t x hr hx ih => exact noForwardRefs_add_node ih hx.le hx.le
  | step_sqrt t x hr hx ih => exact noForwardRefs_add_node ih hx.le hx.le
  | step_abs t x hr hx ih => exact noForwardRefs_add_node ih hx.le hx.le
  | step_powi t x n hr hx ih => exact noForwardRefs_add_node ih hx.le hx.le
  | step_cbrt t x hr hx ih => exact noForwardRefs_add_node ih hx.le hx.le
  | step_addVV t x y hr hx hy ih => exact noForwardRefs_add_node ih hx.le hy.le
  | step_addVP t x c hr hx ih => exact noForwardRefs_add_node ih hx.le hx.le
  | step_addPV t c x hr hx ih => exact noForwardRefs_add_node ih hx.le hx.le
  | step_neg t x hr hx ih => exact noForwardRefs_add_node ih hx.le hx.le
  | step_subVV t x y hr hx hy ih =>
    have h1 : NoForwardRefs (Var.neg y t).2 := noForwardRefs_add_node ih hy.le hy.le
    have hlen : (Var.neg y t).2.len = t.len + 1 := Tape.add_node_len t _ _ _ _
    refine noForwardRefs_add_node h1 ?_ ?_
    · rw [hlen]; exact Nat.le_succ_of_le hx.le
    · rw [hlen]
      show t.len ≤ t.len + 1
      exact Nat.le_succ t.len
  | step_subPV t c y hr hy ih => exact noForwardRefs_add_node ih hy.le hy.le
  | step_subVP t x c hr hx ih => exact noForwardRefs_add_node ih hx.le hx.le
  | step_mulVV t x y hr hx hy ih => exact noForwardRefs_add_node ih hx.le hy.le
  | step_mulVP t x c hr hx ih => exact noForwardRefs_add_node ih hx.le hx.le
  | step_mulPV t c x hr hx ih => exact noForwardRefs_add_node ih hx.le hx.le
  | step_divVV t x y hr hx hy ih =>
    have h1 : NoForwardRefs (Var.recip y t).2 := noForwardRefs_add_node ih hy.le hy.le
    have hlen : (Var.recip y t).2.len = t.len + 1 := Tape.add_node_len t _ _ _ _
    refine noForwardRefs_add_node h1 ?_ ?_
    · rw [hlen]; exact Nat.le_succ_of_le hx.le
    · rw [hlen]
      show t.len ≤ t.len + 1
      exact Nat.le_succ t.len
  | step_divVP t x c hr hx ih => exact noForwardRefs_add_node ih hx.le hx.le
  | step_divPV t c y hr hy ih => exact noForwardRefs_add_node ih hy.le hy.le
  | step_powfVV t x y hr hx hy ih => exact noForwardRefs_add_node ih hx.le hy.le
  | step_powfVP t x c hr hx ih => exact noForwardRefs_add_node ih hx.le hx.le
  | step_powfPV t c x hr hx ih => exact noForwardRefs_add_node ih hx.le hx.le
  | step_sum t t' vs v hr hlocs heq ih =>
    cases vs with
    | nil => exact absurd heq (by simp [sumVars])
    | cons v0 rest =>
      have hfold := noForwardRefs_sumFold rest ih
        (hlocs v0 (List.mem_cons_self v0 rest))
        (fun x hx => hlocs x (List.mem_cons_of_mem v0 hx))
      simp only [sumVars, Option.some.injEq] at heq
      have ht' : t' =
          (List.foldl (fun (p : Var × Tape) b => Var.addVV p.1 b p.2) (v0, t) rest).2 := by
        rw [heq]
      rw [ht']
      exact hfold

/- ### Helper lemmas -/

theorem getD_append_len (t : Tape) (a : Node) :
    List.getD (List.append t [a]) t.len default = a := by
  simp [List.getD, Tape.len]

theorem gradStep_length (idx : ℕ) (nd : Node) (d : List ℝ) :
    (gradStep idx nd d).length = d.length := by
  simp [gradStep]

theorem foldr_gradStep_length (l : List (ℕ × Node)) (d : List ℝ) :
    (List.foldr (fun (p : ℕ × Node) d => gradStep p.1 p.2 d) d l).length
      = d.length := by
  induction l with
  | nil => rfl
  | cons p rest ih => rw [List.foldr_cons, gradStep_length, ih]

theorem grad_length (x : Var) (t : Tape) : (x.grad t).length = t.len := by
  unfold Var.grad
  rw [foldr_gradStep_length]
  simp [Tape.len]

/- ### Claim theorems -/

/-- C1: for every `Var` whose location is a valid index into its tape,
`grad()` returns a vector of length equal to the tape's length at the
moment of the call, and that vector is exactly the one described by the
spec's backward pass: allocate zeros, seed `adjoint[terminal.location] = 1`,
then scan tape positions from the highest index down to 0, at position `i`
accumulating `adjoint[dependency] += weight * adjoint[i]` for each of the
node's two (dependency, weight) pairs. -/
theorem grad_matches_spec (x : Var) (t : Tape) (h : x.location < t.len) :
    (x.grad t).length = t.len ∧ x.grad t = gradSpec x t := by
  refine ⟨grad_length x t, ?_⟩
  unfold Var.grad gradSpec
  exact foldr_enum_eq_specScan t _

/-- Witness for C1 on the one-leaf tape. -/
theorem grad_matches_spec_witness :
    ((Tape.new.add_var 2).1.grad (Tape.new.add_var 2).2).length
        = (Tape.new.add_var 2).2.len ∧
    (Tape.new.add_var 2).1.grad (Tape.new.add_var 2).2
        = gradSpec (Tape.new.add_var 2).1 (Tape.new.add_var 2).2 :=
  grad_matches_spec _ _ (by decide)

/-- Witness for C2: the tape holding two leaves and their sum is
reachable, hence has no forward references. -/
theorem reachable_noForwardRefs_witness :
    NoForwardRefs
      (Var.addVV (Tape.new.add_var 1).1 ((Tape.new.add_var 1).2.add_var 2).1
        ((Tape.new.add_var 1).2.add_var 2).2).2 :=
  reachable_noForwardRefs _
    (Reachable.step_addVV _ _ _
      (Reachable.step_add_var _ 2 (Reachable.step_add_var _ 1 Reachable.empty))
      (by decide) (by decide))

/-- C7: `zero_grad()` sets every stored weight pair to `[0,0]` and changes
nothing else — the tape length and every node's dependency indices are
unchanged. -/
theorem zero_grad_weights_only (t : Tape) :
    t.zero_grad.len = t.len ∧
    ∀ i, i < t.len →
      (List.getD t.zero_grad i default).dependencies
          = (List.getD t i default).dependencies ∧
      (List.getD t.zero_grad i default).weights = (0, 0) := by
  refine ⟨by simp [Tape.zero_grad, Tape.len], ?_⟩
  intro i hi
  have hi' : i < List.length t := hi
  have ha : t[i]? = some t[i] := List.getElem?_eq_getElem hi'
  have hz : List.getD t.zero_grad i default
      = { t[i] with weights := (0, 0) } := by
    simp [Tape.zero_grad, List.getD, ha]
  have hta : List.getD t i default = t[i] := by
    simp [List.getD, ha]
  rw [hz, hta]
  exact ⟨rfl, rfl⟩

/-- A concrete two-node tape used by witnesses. -/
def sampleTape : Tape := [⟨(5, 6), (0, 0)⟩, ⟨(7, 8), (0, 1)⟩]

/-- Witness for C7 on a concrete two-node tape, read off at position 1. -/
theorem zero_grad_weights_only_witness :
    sampleTape.zero_grad.len = sampleTape.len ∧
    (List.getD sampleTape.zero_grad 1 default).dependencies
        = (List.getD sampleTape 1 default).dependencies ∧
    (List.getD sampleTape.zero_grad 1 default).weights = (0, 0) :=
  ⟨(zero_grad_weights_only sampleTape).1,
   ((zero_grad_weights_only sampleTape).2 1 (by decide)).1,
   ((zero_grad_weights_only sampleTape).2 1 (by decide)).2⟩

/-- C3 (code bug): the scalar-left division `c / x` appends a node whose
second weight is `-1 / x.val` — the derivative of `1/x`, not the correct
(and specified) `−c/x²`.  At `c = 6`, `x.val = 2` the recorded weight is
`−1/2` whereas the spec's formula gives `−6/2² = −3/2`. -/
theorem divPV_records_wrong_weight :
    (Var.divPV 6 ⟨2, 0⟩ Tape.new).1.val = 6 / 2 ∧
    (List.getD (Var.divPV 6 ⟨2, 0⟩ Tape.new).2 0 default).weights = (0, -1 / 2) ∧
    (-1 / 2 : ℝ) ≠ -(6 / 2 ^ 2) := by
  refine ⟨rfl, rfl, by norm_num⟩

/-- C6: the scalar-base power `c ^ x` records value `c^x` and weights
`[0, x·c^(x−1)]` — the reference formula reproduced exactly; at `c = 1`,
`x = 2` the recorded weight (`2`) differs from `c^x·ln c` (`0`), so the
code does not use the logarithmic formula. -/
theorem powfPV_reference_formula (c : ℝ) (x : Var) (t : Tape) :
    (Var.powfPV c x t).1.val = c ^ x.val ∧
    (List.getD (Var.powfPV c x t).2 t.len default).weights
        = (0, x.val * c ^ (x.val - 1)) ∧
    (List.getD (Var.powfPV 1 ⟨2, 0⟩ Tape.new).2 0 default).weights.2
        ≠ (1 : ℝ) ^ (2 : ℝ) * Real.log 1 := by
  refine ⟨rfl, congrArg Node.weights (getD_append_len t _), ?_⟩
  show (2 : ℝ) * (1 : ℝ) ^ ((2 : ℝ) - 1) ≠ (1 : ℝ) ^ (2 : ℝ) * Real.log 1
  rw [Real.one_rpow, Real.one_rpow, Real.log_one]
  norm_num

/-- Modelled from the spec: the pairwise `add` fold of a non-empty
sequence of handles (first element as seed). -/
def pairwiseAddFold (v : Var) (vs : List Var) (t : Tape) : Var × Tape :=
  match vs with
  | [] => (v, t)
  | b :: rest => pairwiseAddFold (Var.addVV v b t).1 rest (Var.addVV v b t).2

theorem foldl_addVV_eq_pairwiseAddFold (vs : List Var) (v : Var) (t : Tape) :
    List.foldl (fun (p : Var × Tape) b => Var.addVV p.1 b p.2) (v, t) vs
      = pairwiseAddFold v vs t := by
  induction vs generalizing v t with
  | nil => rfl
  | cons b rest ih =>
    rw [List.foldl_cons, pairwiseAddFold]
    exact ih _ _

/-- C8: summing an empty collection of handles fails (the `reduce` result
is `unwrap`ped, panicking on `None`), while summing any non-empty
collection returns the pairwise `add` fold of its elements. -/
theorem sum_empty_fails_nonempty_folds (t : Tape) (v : Var) (vs : List Var) :
    sumVars [] t = none ∧
    sumVars (v :: vs) t = some (pairwiseAddFold v vs t) := by
  refine ⟨rfl, ?_⟩
  rw [sumVars, foldl_addVV_eq_pairwiseAddFold]

/- ### Multi-tape layer: tape identity, the cross-tape assertion, comparisons -/

/-- A world of `Tape` instances at distinct addresses; a tape identity
stands for the `&Tape` pointer carried by a `Var<'a>`. -/
def World := ℕ → Tape

/-- `Var<'a>` with its `tape: &'a Tape` reference made explicit as a tape
identity into a `World`. -/
structure VarH where
  val : ℝ
  location : ℕ
  tapeId : ℕ

/-- Forget the tape reference, keeping the single-tape part of the handle. -/
def VarH.toVar (x : VarH) : Var := ⟨x.val, x.location⟩

/-- `ops.rs` `add(Var, Var)` with its
`assert_eq!(self.tape as *const Tape, rhs.tape as *const Tape)`
precondition: on mismatch the call panics — no handle is produced
(`none`) and the world is as it stood when the assertion fired. -/
noncomputable def VarH.addH (x y : VarH) (w : World) : World × Option VarH :=
  if x.tapeId = y.tapeId then
    let r := Var.addVV x.toVar y.toVar (w x.tapeId)
    (Function.update w x.tapeId r.2, some ⟨r.1.val, r.1.location, x.tapeId⟩)
  else (w, none)

/-- `ops.rs` `mul(Var, Var)` with its tape-identity assertion. -/
noncomputable def VarH.mulH (x y : VarH) (w : World) : World × Option VarH :=
  if x.tapeId = y.tapeId then
    let r := Var.mulVV x.toVar y.toVar (w x.tapeId)
    (Function.update w x.tapeId r.2, some ⟨r.1.val, r.1.location, x.tapeId⟩)
  else (w, none)

/-- `ops.rs` `powf(Var, Var)` with its tape-identity assertion. -/
noncomputable def VarH.powfH (x y : VarH) (w : World) : World × Option VarH :=
  if x.tapeId = y.tapeId then
    let r := Var.powfVV x.toVar y.toVar (w x.tapeId)
    (Function.update w x.tapeId r.2, some ⟨r.1.val, r.1.location, x.tapeId⟩)
  else (w, none)

/-- `ops.rs` unary `neg` on a handle: appends to the handle's own tape,
no assertion. -/
noncomputable def VarH.negH (x : VarH) (w : World) : VarH × World :=
  let r := Var.neg x.toVar (w x.tapeId)
  (⟨r.1.val, r.1.location, x.tapeId⟩, Function.update w x.tapeId r.2)

/-- `Var::recip` on a handle: appends to the handle's own tape,
no assertion. -/
noncomputable def VarH.recipH (x : VarH) (w : World) : VarH × World :=
  let r := Var.recip x.toVar (w x.tapeId)
  (⟨r.1.val, r.1.location, x.tapeId⟩, Function.update w x.tapeId r.2)

/-- `ops.rs` `sub(Var, Var)`: `self + rhs.neg()` — the negation node is
appended to `rhs`'s tape before the addition's assertion can fire. -/
noncomputable def VarH.subH (x y : VarH) (w : World) : World × Option VarH :=
  let p := VarH.negH y w
  VarH.addH x p.1 p.2

/-- `ops.rs` `div(Var, Var)`: `self * rhs.recip()` — the reciprocal node
is appended to `rhs`'s tape before the multiplication's assertion can
fire. -/
noncomputable def VarH.divH (x y : VarH) (w : World) : World × Option VarH :=
  let p := VarH.recipH y w
  VarH.mulH x p.1 p.2

/-- `PartialEq for Var` (`lib.rs`): `self.val.eq(&other.val)` — only the
values are compared. -/
def VarH.eqV (x y : VarH) : Prop := x.val = y.val

/-- `PartialOrd for Var` (`lib.rs`): `self.val.partial_cmp(&other.val)`;
over `ℝ` (no NaN) the comparison is always defined. -/
noncomputable def VarH.partialCmp (x y : VarH) : Option Ordering :=
  some (cmp x.val y.val)

/-- A world in which every tape holds exactly one leaf node. -/
def crossWorld : World := fun _ => (Tape.new.add_var 0).2

/-- C5 counterexample: `sub` between handles on different tapes (tape 0
and tape 1 of `crossWorld`) does abort (`none`), but it does NOT leave
both tapes untouched: the negation of the right operand has already
appended a node to tape 1. -/
theorem subH_cross_tape_appends :
    (VarH.subH ⟨1, 0, 0⟩ ⟨2, 0, 1⟩ crossWorld).2 = none ∧
    ((VarH.subH ⟨1, 0, 0⟩ ⟨2, 0, 1⟩ crossWorld).1 1).len ≠ (crossWorld 1).len := by
  constructor
  · rfl
  · intro hL
    have : (2 : ℕ) = 1 := hL
    cases this

/-- C5 (amended): a cross-tape `add`, `mul` or `powf` aborts immediately
with nothing appended to any tape; a cross-tape `sub` or `div` also aborts
without producing a handle, but only after appending one intermediate node
(the negation / reciprocal) to the right operand's tape; every other tape
is untouched.  In no case is a handle produced or a cross-tape node
recorded. -/
theorem cross_tape_ops_abort (x y : VarH) (w : World) (h : x.tapeId ≠ y.tapeId) :
    VarH.addH x y w = (w, none) ∧
    VarH.mulH x y w = (w, none) ∧
    VarH.powfH x y w = (w, none) ∧
    (VarH.subH x y w).2 = none ∧
    ((VarH.subH x y w).1 y.tapeId).len = (w y.tapeId).len + 1 ∧
    (∀ j, j ≠ y.tapeId → (VarH.subH x y w).1 j = w j) ∧
    (VarH.divH x y w).2 = none ∧
    ((VarH.divH x y w).1 y.tapeId).len = (w y.tapeId).len + 1 ∧
    (∀ j, j ≠ y.tapeId → (VarH.divH x y w).1 j = w j) := by
  have hsub : VarH.subH x y w = ((VarH.negH y w).2, none) := by
    rw [VarH.subH, VarH.addH]
    exact if_neg h
  have hdiv : VarH.divH x y w = ((VarH.recipH y w).2, none) := by
    rw [VarH.divH, VarH.mulH]
    exact if_neg h
  refine ⟨by rw [VarH.addH]; exact if_neg h,
          by rw [VarH.mulH]; exact if_neg h,
          by rw [VarH.powfH]; exact if_neg h, ?_, ?_, ?_, ?_, ?_, ?_⟩
  · rw [hsub]
  · rw [hsub]
    show ((VarH.negH y w).2 y.tapeId).len = (w y.tapeId).len + 1
    rw [VarH.negH]
    simp only [Function.update_same]
    exact Tape.add_node_len (w y.tapeId) _ _ _ _
  · intro j hj
    rw [hsub]
    show (VarH.negH y w).2 j = w j
    rw [VarH.negH]
    exact Function.update_noteq hj _ _
  · rw [hdiv]
  · rw [hdiv]
    show ((VarH.recipH y w).2 y.tapeId).len = (w y.tapeId).len + 1
    rw [VarH.recipH]
    simp only [Function.update_same]
    exact Tape.add_node_len (w y.tapeId) _ _ _ _
  · intro j hj
    rw [hdiv]
    show (VarH.recipH y w).2 j = w j
    rw [VarH.recipH]
    exact Function.update_noteq hj _ _

/-- Witness for the amended C5 at handles on tapes 0 and 1 of
`crossWorld`. -/
theorem cross_tape_ops_abort_witness :
    VarH.addH ⟨1, 0, 0⟩ ⟨2, 0, 1⟩ crossWorld = (crossWorld, none) ∧
    VarH.mulH ⟨1, 0, 0⟩ ⟨2, 0, 1⟩ crossWorld = (crossWorld, none) ∧
    VarH.powfH ⟨1, 0, 0⟩ ⟨2, 0, 1⟩ crossWorld = (crossWorld, none) ∧
    (VarH.subH ⟨1, 0, 0⟩ ⟨2, 0, 1⟩ crossWorld).2 = none ∧
    ((VarH.subH ⟨1, 0, 0⟩ ⟨2, 0, 1⟩ crossWorld).1 1).len = (crossWorld 1).len + 1 ∧
    (VarH.subH ⟨1, 0, 0⟩ ⟨2, 0, 1⟩ crossWorld).1 0 = crossWorld 0 ∧
    (VarH.divH ⟨1, 0, 0⟩ ⟨2, 0, 1⟩ crossWorld).2 = none ∧
    ((VarH.divH ⟨1, 0, 0⟩ ⟨2, 0, 1⟩ crossWorld).1 1).len = (crossWorld 1).len + 1 ∧
    (VarH.divH ⟨1, 0, 0⟩ ⟨2, 0, 1⟩ crossWorld).1 0 = crossWorld 0 :=
  have H := cross_tape_ops_abort ⟨1, 0, 0⟩ ⟨2, 0, 1⟩ crossWorld (by decide)
  ⟨H.1, H.2.1, H.2.2.1, H.2.2.2.1, H.2.2.2.2.1,
   H.2.2.2.2.2.1 0 (by decide), H.2.2.2.2.2.2.1,
   H.2.2.2.2.2.2.2.1, H.2.2.2.2.2.2.2.2 0 (by decide)⟩

/-- C10: equality and ordering between two `Var` handles compare only the
floating-point values — two handles with equal `val` compare equal (and
order as `Ordering.eq`) regardless of their locations and regardless of
which tape instance each references. -/
theorem varH_compare_val_only (x y : VarH) (h : x.val = y.val) :
    VarH.eqV x y ∧ VarH.partialCmp x y = some Ordering.eq := by
  refine ⟨h, ?_⟩
  rw [VarH.partialCmp, h, cmp_self_eq_eq]

/-- Witness for C10: handles with equal value but different locations and
different tape identities compare equal. -/
theorem varH_compare_val_only_witness :
    VarH.eqV ⟨1, 0, 0⟩ ⟨1, 5, 3⟩ ∧
    VarH.partialCmp ⟨1, 0, 0⟩ ⟨1, 5, 3⟩ = some Ordering.eq :=
  varH_compare_val_only ⟨1, 0, 0⟩ ⟨1, 5, 3⟩ rfl

/- ### Node-count accounting for the elementary operations (C4) -/

/-- One elementary-operation call of the §4.2 table, with its operand
handles and scalar arguments recorded as data. -/
inductive OpCall where
  | opRecip (x : Var)
  | opSin (x : Var)
  | opCos (x : Var)
  | opTan (x : Var)
  | opLn (x : Var)
  | opLog (x : Var) (base : ℝ)
  | opLog10 (x : Var)
  | opLog2 (x : Var)
  | opLn1p (x : Var)
  | opAsin (x : Var)
  | opAcos (x : Var)
  | opAtan (x : Var)
  | opSinh (x : Var)
  | opCosh (x : Var)
  | opTanh (x : Var)
  | opAsinh (x : Var)
  | opAcosh (x : Var)
  | opAtanh (x : Var)
  | opExp (x : Var)
  | opExp2 (x : Var)
  | opSqrt (x : Var)
  | opAbs (x : Var)
  | opPowi (x : Var) (n : ℤ)
  | opCbrt (x : Var)
  | opAddVV (x y : Var)
  | opAddVP (x : Var) (c : ℝ)
  | opAddPV (c : ℝ) (x : Var)
  | opNeg (x : Var)
  | opSubVV (x y : Var)
  | opSubPV (c : ℝ) (y : Var)
  | opSubVP (x : Var) (c : ℝ)
  | opMulVV (x y : Var)
  | opMulVP (x : Var) (c : ℝ)
  | opMulPV (c : ℝ) (x : Var)
  | opDivVV (x y : Var)
  | opDivVP (x : Var) (c : ℝ)
  | opDivPV (c : ℝ) (y : Var)
  | opPowfVV (x y : Var)
  | opPowfVP (x : Var) (c : ℝ)
  | opPowfPV (c : ℝ) (x : Var)
  | opSum (vs : List Var)

/-- Run one elementary-operation call against the tape (the tape it leaves
behind; `opSum []` panics in `unwrap` before touching the tape). -/
noncomputable def runOp : OpCall → Tape → Tape
  | .opRecip x, t => (Var.recip x t).2
  | .opSin x, t => (Var.sin x t).2
  | .opCos x, t => (Var.cos x t).2
  | .opTan x, t => (Var.tan x t).2
  | .opLn x, t => (Var.ln x t).2
  | .opLog x base, t => (Var.log x base t).2
  | .opLog10 x, t => (Var.log10 x t).2
  | .opLog2 x, t => (Var.log2 x t).2
  | .opLn1p x, t => (Var.ln_1p x t).2
  | .opAsin x, t => (Var.asin x t).2
  | .opAcos x, t => (Var.acos x t).2
  | .opAtan x, t => (Var.atan x t).2
  | .opSinh x, t => (Var.sinh x t).2
  | .opCosh x, t => (Var.cosh x t).2
  | .opTanh x, t => (Var.tanh x t).2
  | .opAsinh x, t => (Var.asinh x t).2
  | .opAcosh x, t => (Var.acosh x t).2
  | .opAtanh x, t => (Var.atanh x t).2
  | .opExp x, t => (Var.exp x t).2
  | .opExp2 x, t => (Var.exp2 x t).2
  | .opSqrt x, t => (Var.sqrt x t).2
  | .opAbs x, t => (Var.abs x t).2
  | .opPowi x n, t => (Var.powi x n t).2
  | .opCbrt x, t => (Var.cbrt x t).2
  | .opAddVV x y, t => (Var.addVV x y t).2
  | .opAddVP x c, t => (Var.addVP x c t).2
  | .opAddPV c x, t => (Var.addPV c x t).2
  | .opNeg x, t => (Var.neg x t).2
  | .opSubVV x y, t => (Var.subVV x y t).2
  | .opSubPV c y, t => (Var.subPV c y t).2
  | .opSubVP x c, t => (Var.subVP x c t).2
  | .opMulVV x y, t => (Var.mulVV x y t).2
  | .opMulVP x c, t => (Var.mulVP x c t).2
  | .opMulPV c x, t => (Var.mulPV c x t).2
  | .opDivVV x y, t => (Var.divVV x y t).2
  | .opDivVP x c, t => (Var.divVP x c t).2
  | .opDivPV c y, t => (Var.divPV c y t).2
  | .opPowfVV x y, t => (Var.powfVV x y t).2
  | .opPowfVP x c, t => (Var.powfVP x c t).2
  | .opPowfPV c x, t => (Var.powfPV c x t).2
  | .opSum vs, t =>
    match sumVars vs t with
    | none => t
    | some p => p.2

/-- How many nodes one call actually appends: 1 for the direct table
entries, 2 for the composite `sub`/`div` between two `Var`s, `n − 1` for a
sum of `n` handles. -/
def nodeCost : OpCall → ℕ
  | .opSubVV _ _ => 2
  | .opDivVV _ _ => 2
  | .opSum vs => vs.length - 1
  | _ => 1

/-- Run a sequence of elementary-operation calls left to right. -/
noncomputable def runOps (ops : List OpCall) (t : Tape) : Tape :=
  List.foldl (fun t op => runOp op t) t ops

theorem sumFold_len (vs : List Var) (v : Var) (t : Tape) :
    (List.foldl (fun (p : Var × Tape) b => Var.addVV p.1 b p.2) (v, t) vs).2.len
      = t.len + vs.length := by
  induction vs generalizing v t with
  | nil => rfl
  | cons b rest ih =>
    rw [List.foldl_cons,
      show Var.addVV v b t = ((Var.addVV v b t).1, (Var.addVV v b t).2) from rfl]
    have h1 : (Var.addVV v b t).2.len = t.len + 1 := Tape.add_node_len t _ _ _ _
    have h2 := ih (Var.addVV v b t).1 (Var.addVV v b t).2
    rw [h2, h1]
    simp only [List.length_cons]
    omega

theorem runOp_len (op : OpCall) (t : Tape) :
    (runOp op t).len = t.len + nodeCost op := by
  cases op with
  | opRecip x => exact Tape.add_node_len t _ _ _ _
  | opSin x => exact Tape.add_node_len t _ _ _ _
  | opCos x => exact Tape.add_node_len t _ _ _ _
  | opTan x => exact Tape.add_node_len t _ _ _ _
  | opLn x => exact Tape.add_node_len t _ _ _ _
  | opLog x base => exact Tape.add_node_len t _ _ _ _
  | opLog10 x => exact Tape.add_node_len t _ _ _ _
  | opLog2 x => exact Tape.add_node_len t _ _ _ _
  | opLn1p x => exact Tape.add_node_len t _ _ _ _
  | opAsin x => exact Tape.add_node_len t _ _ _ _
  | opAcos x => exact Tape.add_node_len t _ _ _ _
  | opAtan x => exact Tape.add_node_len t _ _ _ _
  | opSinh x => exact Tape.add_node_len t _ _ _ _
  | opCosh x => exact Tape.add_node_len t _ _ _ _
  | opTanh x => exact Tape.add_node_len t _ _ _ _
  | opAsinh x => exact Tape.add_node_len t _ _ _ _
  | opAcosh x => exact Tape.add_node_len t _ _ _ _
  | opAtanh x => exact Tape.add_node_len t _ _ _ _
  | opExp x => exact Tape.add_node_len t _ _ _ _
  | opExp2 x => exact Tape.add_node_len t _ _ _ _
  | opSqrt x => exact Tape.add_node_len t _ _ _ _
  | opAbs x => exact Tape.add_node_len t _ _ _ _
  | opPowi x n => exact Tape.add_node_len t _ _ _ _
  | opCbrt x => exact Tape.add_node_len t _ _ _ _
  | opAddVV x y => exact Tape.add_node_len t _ _ _ _
  | opAddVP x c => exact Tape.add_node_len t _ _ _ _
  | opAddPV c x => exact Tape.add_node_len t _ _ _ _
  | opNeg x => exact Tape.add_node_len t _ _ _ _
  | opSubVV x y =>
    show (Var.subVV x y t).2.len = t.len + 2
    have h1 : (Var.neg y t).2.len = t.len + 1 := Tape.add_node_len t _ _ _ _
    have h2 : (Var.subVV x y t).2.len = (Var.neg y t).2.len + 1 :=
      Tape.add_node_len _ _ _ _ _
    omega
  | opSubPV c y => exact Tape.add_node_len t _ _ _ _
  | opSubVP x c => exact Tape.add_node_len t _ _ _ _
  | opMulVV x y => exact Tape.add_node_len t _ _ _ _
  | opMulVP x c => exact Tape.add_node_len t _ _ _ _
  | opMulPV c x => exact Tape.add_node_len t _ _ _ _
  | opDivVV x y =>
    show (Var.divVV x y t).2.len = t.len + 2
    have h1 : (Var.recip y t).2.len = t.len + 1 := Tape.add_node_len t _ _ _ _
    have h2 : (Var.divVV x y t).2.len = (Var.recip y t).2.len + 1 :=
      Tape.add_node_len _ _ _ _ _
    omega
  | opDivVP x c => exact Tape.add_node_len t _ _ _ _
  | opDivPV c y => exact Tape.add_node_len t _ _ _ _
  | opPowfVV x y => exact Tape.add_node_len t _ _ _ _
  | opPowfVP x c => exact Tape.add_node_len t _ _ _ _
  | opPowfPV c x => exact Tape.add_node_len t _ _ _ _
  | opSum vs =>
    cases vs with
    | nil => rfl
    | cons v rest =>
      show (List.foldl (fun (p : Var × Tape) b => Var.addVV p.1 b p.2) (v, t) rest).2.len
        = t.len + ((v :: rest).length - 1)
      rw [sumFold_len]
      simp

theorem runOps_len (ops : List OpCall) (t : Tape) :
    (runOps ops t).len = t.len + (List.map nodeCost ops).sum := by
  induction ops generalizing t with
  | nil => rfl
  | cons op rest ih =>
    show (runOps rest (runOp op t)).len = _
    rw [ih, runOp_len]
    simp [Nat.add_assoc]

theorem add_vars_len (t : Tape) (vals : List ℝ) :
    (t.add_vars vals).2.len = t.len + vals.length := by
  induction vals generalizing t with
  | nil => rfl
  | cons v rest ih =>
    show ((t.add_var v).2.add_vars rest).2.len = _
    rw [ih]
    have : (t.add_var v).2.len = t.len + 1 := Tape.add_node_len t _ _ _ _
    simp only [List.length_cons]
    omega

/-- C4 counterexample: after `k = 2` leaf insertions, a single call to
`sub` between two `Var`s leaves the tape at length 4, not `k + m = 3` —
the call appends two nodes (the negation and the addition). -/
theorem subVV_two_nodes_counterexample :
    (runOps [OpCall.opSubVV ⟨1, 0⟩ ⟨2, 1⟩] (Tape.new.add_vars [1, 2]).2).len ≠ 2 + 1 := by
  decide

/-- C4 (amended): every elementary-operation call of the §4.2 table
appends exactly one node, except `sub` and `div` between two `Var`s which
each append exactly two (their negation / reciprocal intermediate plus the
following `add` / `mul`), and `sum` of `n` handles which appends `n − 1`;
hence after `k` leaf insertions and a sequence of calls the tape length is
`k` plus the total of those per-call node counts. -/
theorem tape_len_counts_nodes (vals : List ℝ) (ops : List OpCall) :
    (runOps ops (Tape.new.add_vars vals).2).len
      = vals.length + (List.map nodeCost ops).sum := by
  rw [runOps_len, add_vars_len]
  simp [Tape.new, Tape.len]

/- ### Scenario C: the compound-assignment chain of `test_assign` -/

/-- Scenario C leaf: `let a = g.add_var(1.)`. -/
def scenA : Var × Tape := Tape.new.add_var 1

/-- `let mut b = a * 1.0`. -/
noncomputable def scenB1 : Var × Tape := Var.mulVP scenA.1 1 scenA.2

/-- `b *= 3.0`. -/
noncomputable def scenB2 : Var × Tape := Var.mulVP scenB1.1 3 scenB1.2

/-- `b /= 2.0`. -/
noncomputable def scenB3 : Var × Tape := Var.divVP scenB2.1 2 scenB2.2

/-- `b += 5.0`. -/
noncomputable def scenB4 : Var × Tape := Var.addVP scenB3.1 5 scenB3.2

/-- `b -= 4.0`. -/
noncomputable def scenB5 : Var × Tape := Var.subVP scenB4.1 4 scenB4.2

/-- C9: for the fresh tape with one leaf `a = 1` and the chain
`b = a*1.0; b *= 3.0; b /= 2.0; b += 5.0; b -= 4.0`, the backward pass
gives `grad(b) wrt a = 1.5` and `b.val = 2.5` exactly. -/
theorem scenario_c_assign_chain :
    wrt (scenB5.1.grad scenB5.2) scenA.1 = 1.5 ∧ scenB5.1.val = 2.5 := by
  constructor
  · show wrt (scenB5.1.grad scenB5.2) scenA.1 = 1.5
    norm_num [wrt, Var.grad, gradStep, scenB5, scenB4, scenB3, scenB2, scenB1, scenA,
      Tape.new, Tape.add_var, Tape.add_node, Tape.len, Var.subVP, Var.addVP,
      Var.divVP, Var.mulVP, List.enum, List.enumFrom, List.replicate,
      List.set, List.getD, List.getElem_cons_zero, List.getElem_cons_succ]
    show (0 : ℝ) + 3 / 2 = 3 / 2
    norm_num
  · show (1 : ℝ) * 1 * 3 * 2⁻¹ + 5 + -4 = 2.5
    norm_num

end Reverse
